import Mathlib

/-!
# dirhash: a verification development

A shallow embedding of `cmd/dirhash/main.go` (the `hash` default action and the
`verify` sub-command action) together with the parts of the Go standard library
that the two actions call on byte strings (`strings.Split`, string slicing,
`encoding/base64`).

Go strings are byte sequences, and both `strings.Split` and the slice
expression `values[1][3:]` work on bytes, so strings are modelled as lists of
bytes rather than as lists of Unicode characters.
-/

namespace Dirhash

/-! ## Byte strings -/

/-- A Go `byte`. -/
abbrev Byte := Fin 256

/-- A Go `string` (and also a `[]byte`): a finite sequence of bytes. -/
abbrev GoString := List Byte

/-- Truncating conversion `byte(n)`. -/
def toByte (n : Nat) : Byte := ⟨n % 256, Nat.mod_lt n (by decide)⟩

/-- The bytes of an ASCII literal. -/
def bytes (s : String) : GoString := s.toList.map (fun ch => toByte ch.toNat)

/-- The separator `","` of the combined hash string. -/
def comma : Byte := 44

/-- Go `strings.Split(s, sep)` for a one-byte separator: the segments of `s`
between consecutive occurrences of `sep`; always at least one segment. -/
def Split : GoString → Byte → List GoString
  | [], _ => [[]]
  | ch :: rest, sep =>
    if ch = sep then [] :: Split rest sep
    else
      match Split rest sep with
      | [] => [[ch]]
      | seg :: segs => (ch :: seg) :: segs

/-- Outcome of the slice expression `s[n:]`: `none` stands for the run-time
panic "slice bounds out of range" that Go raises when `n > len(s)`. -/
def sliceFrom (s : GoString) (n : Nat) : Option GoString :=
  if n ≤ s.length then some (s.drop n) else none

/-! ## `encoding/base64`, `StdEncoding` -/

/-- The alphabet of `base64.StdEncoding`. -/
def encodeStd : GoString :=
  bytes "ABCDEFGHIJKLMNOPQRSTUVWXYZabcdefghijklmnopqrstuvwxyz0123456789+/"

/-- The padding character `'='` of `base64.StdEncoding`. -/
def StdPadding : Byte := 61

/-- The encoding table lookup `enc.encode[i]`. -/
def encChar (i : Nat) : Byte := encodeStd.getD i 0

/-- The decoding table lookup `enc.decodeMap[ch]`; `none` stands for the
invalid marker `0xff`. -/
def decodeMap (ch : Byte) : Option Nat :=
  if encodeStd.indexOf ch < 64 then some (encodeStd.indexOf ch) else none

/-- Go `base64.StdEncoding.EncodeToString`: three input bytes become four
characters; a final group of one or two bytes is padded with `'='`. -/
def EncodeToString : List Byte → GoString
  | a :: b :: c :: rest =>
    let val := a.val * 65536 + b.val * 256 + c.val
    encChar (val / 262144 % 64) :: encChar (val / 4096 % 64) ::
      encChar (val / 64 % 64) :: encChar (val % 64) :: EncodeToString rest
  | [a, b] =>
    let val := a.val * 65536 + b.val * 256
    [encChar (val / 262144 % 64), encChar (val / 4096 % 64), encChar (val / 64 % 64), StdPadding]
  | [a] =>
    let val := a.val * 65536
    [encChar (val / 262144 % 64), encChar (val / 4096 % 64), StdPadding, StdPadding]
  | [] => []

deriving instance DecidableEq for Except

/-- The error `base64.CorruptInputError` (its byte offset is not modelled). -/
inductive CorruptInputError where
  | corrupt : CorruptInputError
  deriving DecidableEq, Repr

/-- The quantum loop of `base64.StdEncoding.Decode` on an input from which the
ignored `'\r'` and `'\n'` have been removed: every group of four characters of
the alphabet yields three bytes; padding is only accepted in the last group
(`xx==` yields one byte, `xxx=` two), and anything else is corrupt input.
`StdEncoding` is not strict, so the unused low bits of a padded group are not
checked. -/
def decodeQuanta : GoString → Except CorruptInputError (List Byte)
  | [] => .ok []
  | c0 :: c1 :: c2 :: c3 :: rest =>
    match decodeMap c0, decodeMap c1 with
    | some d0, some d1 =>
      match decodeMap c2, decodeMap c3 with
      | some d2, some d3 =>
        let val := d0 * 262144 + d1 * 4096 + d2 * 64 + d3
        match decodeQuanta rest with
        | .ok out => .ok (toByte (val / 65536) :: toByte (val / 256) :: toByte val :: out)
        | .error e => .error e
      | some d2, none =>
        let val := d0 * 262144 + d1 * 4096 + d2 * 64
        if c3 = StdPadding ∧ rest = [] then
          .ok [toByte (val / 65536), toByte (val / 256)]
        else .error .corrupt
      | none, _ =>
        let val := d0 * 262144 + d1 * 4096
        if c2 = StdPadding ∧ c3 = StdPadding ∧ rest = [] then
          .ok [toByte (val / 65536)]
        else .error .corrupt
    | _, _ => .error .corrupt
  | _ => .error .corrupt

/-- Whether the decoder skips the byte: `'\n'` or `'\r'`. -/
def isNewline (ch : Byte) : Bool := ch = 10 || ch = 13

/-- Go `base64.StdEncoding.DecodeString`. -/
def DecodeString (s : GoString) : Except CorruptInputError (List Byte) :=
  decodeQuanta (s.filter (fun ch => !isNewline ch))

/-! ## The command surface: what the actions see of the outside world -/

/-- A non-nil Go `error` returned by a library call, by its message. -/
abbrev GoError := String

/-- The key type identifier `"ssh-ed25519"`. -/
def KeyAlgoED25519 : GoString := bytes "ssh-ed25519"

/-- The struct `ssh.Signature` (the field `Rest` is never set by the program). -/
structure Signature where
  Format : GoString
  Blob : List Byte
  deriving DecidableEq, Repr

/-- The library calls of the two actions. `Signer` and `PubKey` are the
values behind the interfaces `ssh.Signer` and `ssh.PublicKey`; nothing is
assumed about what the calls compute. -/
structure Env (Signer PubKey : Type) where
  /-- Return value of `cli.ShowAppHelp(c)`: `none` is `nil`. -/
  ShowAppHelp : Option GoError
  /-- The call `dirhash.HashDir(dir, "", dirhash.Hash1)`. -/
  HashDir : GoString → Except GoError GoString
  /-- The call `os.ReadFile(path)`. -/
  ReadFile : GoString → Except GoError (List Byte)
  /-- The call `ssh.ParsePrivateKey(keyData)`. -/
  ParsePrivateKey : List Byte → Except GoError Signer
  /-- The call `ssh.ParsePrivateKeyWithPassphrase(keyData, passphrase)`. -/
  ParsePrivateKeyWithPassphrase : List Byte → List Byte → Except GoError Signer
  /-- The method `signer.PublicKey()`. -/
  PublicKey : Signer → PubKey
  /-- The method `publicKey.Type()`. -/
  KeyType : PubKey → GoString
  /-- The method `signer.Sign(rand.Reader, data)`. -/
  Sign : Signer → List Byte → Except GoError Signature
  /-- The call `ssh.ParseAuthorizedKey(data)`, reduced to its first result. -/
  ParseAuthorizedKey : List Byte → Except GoError PubKey
  /-- The method `publicKey.Verify(data, signature)`: `none` is `nil`. -/
  Verify : PubKey → List Byte → Signature → Option GoError

/-- The `*cli.Context` of an action: the positional arguments and the flags
`key` and `key-passphrase`. A flag is `some v` when `c.IsSet` holds for it, with
`v` its `c.String` value. -/
structure Context where
  args : List GoString
  key : Option GoString
  keyPassphrase : Option GoString
  deriving DecidableEq, Repr

/-- Go `c.NArg()`. -/
def Context.NArg (c : Context) : Nat := c.args.length

/-- Go `c.Args().Get(n)`: the empty string when there is no such argument. -/
def Context.Get (c : Context) (n : Nat) : GoString := c.args.getD n []

/-- The errors the two actions build with `fmt.Errorf`, one constructor per
call site, and the error passed on from `cli.ShowAppHelp`. -/
inductive Err where
  /-- A non-nil error returned by `cli.ShowAppHelp`. -/
  | help (e : GoError)
  /-- Error "failed to hash directory: %s". -/
  | hashDirectory (e : GoError)
  /-- Error "failed to read key: %s". -/
  | readKey (e : GoError)
  /-- Error "failed to parse key: %s". -/
  | parseKey (e : GoError)
  /-- Error "only ed25519 keys are supported". -/
  | unsupportedKeyType
  /-- Error "failed to sign hash: %s". -/
  | signHash (e : GoError)
  /-- Error "found signature but no key provided". -/
  | noKey
  /-- Error "failed to decode signature: %s". -/
  | decodeSignature (e : CorruptInputError)
  /-- Error "expected hash %s, got %s". -/
  | hashMismatch (expected got : GoString)
  /-- Error "failed to read public key: %s". -/
  | readPublicKey (e : GoError)
  /-- Error "failed to parse public key: %s". -/
  | parsePublicKey (e : GoError)
  /-- Error "failed to verify signature: %s". -/
  | verifySignature (e : GoError)
  deriving DecidableEq, Repr

/-- How a run of an action ends. -/
inductive Result where
  /-- The action returned `nil`: `app.Run` returns `nil`, exit status zero. -/
  | nil
  /-- The action returned a non-nil error: `log.Fatal`, exit status one. -/
  | error (e : Err)
  /-- The action did not return: a run-time panic unwound the process. -/
  | panic
  deriving DecidableEq, Repr

/-- A library call with an effect or a cost, as it shows in the trace of a run. -/
inductive Call where
  | ShowAppHelp
  | HashDir (dir : GoString)
  | ReadFile (path : GoString)
  | ParsePrivateKey (keyData : List Byte)
  | ParsePrivateKeyWithPassphrase (keyData passphrase : List Byte)
  | Sign (data : List Byte)
  | Println (line : GoString)
  | ParseAuthorizedKey (data : List Byte)
  | Verify (data : List Byte) (signature : Signature)
  deriving DecidableEq, Repr

/-- A run of an action: how it ended and the library calls it made, in order. -/
structure Run where
  result : Result
  trace : List Call
  deriving DecidableEq, Repr

/-- The action's result when it returns what `cli.ShowAppHelp` returned. -/
def helpResult : Option GoError → Result
  | none => .nil
  | some e => .error (.help e)

/-! ## The `hash` action (`main.go`, lines 50-93) -/

/-- The default action of the app. -/
def hashAction {Signer PubKey : Type} (env : Env Signer PubKey) (c : Context) : Run :=
  if c.NArg ≠ 1 then
    ⟨helpResult env.ShowAppHelp, [.ShowAppHelp]⟩
  else
    let dir := c.Get 0
    match env.HashDir dir with
    | .error e => ⟨.error (.hashDirectory e), [.HashDir dir]⟩
    | .ok hash =>
      match c.key with
      | none => ⟨.nil, [.HashDir dir, .Println hash]⟩
      | some keyPath =>
        match env.ReadFile keyPath with
        | .error e => ⟨.error (.readKey e), [.HashDir dir, .ReadFile keyPath]⟩
        | .ok keyData =>
          let parse : Except GoError Signer × Call :=
            match c.keyPassphrase with
            | some passphrase =>
              (env.ParsePrivateKeyWithPassphrase keyData passphrase,
                .ParsePrivateKeyWithPassphrase keyData passphrase)
            | none => (env.ParsePrivateKey keyData, .ParsePrivateKey keyData)
          match parse.1 with
          | .error e => ⟨.error (.parseKey e), [.HashDir dir, .ReadFile keyPath, parse.2]⟩
          | .ok signer =>
            if env.KeyType (env.PublicKey signer) ≠ KeyAlgoED25519 then
              ⟨.error .unsupportedKeyType, [.HashDir dir, .ReadFile keyPath, parse.2]⟩
            else
              match env.Sign signer hash with
              | .error e =>
                ⟨.error (.signHash e), [.HashDir dir, .ReadFile keyPath, parse.2, .Sign hash]⟩
              | .ok signature =>
                ⟨.nil, [.HashDir dir, .ReadFile keyPath, parse.2, .Sign hash,
                  .Println (hash ++ bytes ",s1:" ++ EncodeToString signature.Blob)]⟩

/-! ## The `verify` action (`main.go`, lines 106-159) -/

/-- What the decoding step of `verify` (lines 113-131) ends in. -/
inductive Decoded where
  /-- The expected hash and the signature (`none` is the nil pointer). -/
  | ok (hash : GoString) (signature : Option Signature)
  /-- The action returns this error. -/
  | error (e : Err)
  /-- The slice expression `values[1][3:]` is out of range. -/
  | panic
  deriving DecidableEq, Repr

/-- Lines 113-131 of the `verify` action on the first positional argument;
`keySet` is `c.IsSet("key")`. -/
def decodeCombined (arg : GoString) (keySet : Bool) : Decoded :=
  let values := Split arg comma
  let hash := values.getD 0 []
  if values.length > 1 then
    if !keySet then .error .noKey
    else
      match sliceFrom (values.getD 1 []) 3 with
      | none => .panic
      | some payload =>
        match DecodeString payload with
        | .error e => .error (.decodeSignature e)
        | .ok signatureBlob => .ok hash (some ⟨KeyAlgoED25519, signatureBlob⟩)
  else .ok hash none

/-- The action of the `verify` sub-command. -/
def verifyAction {Signer PubKey : Type} (env : Env Signer PubKey) (c : Context) : Run :=
  if c.NArg ≠ 2 then
    ⟨helpResult env.ShowAppHelp, [.ShowAppHelp]⟩
  else
    let dir := c.Get 1
    match decodeCombined (c.Get 0) c.key.isSome with
    | .panic => ⟨.panic, []⟩
    | .error e => ⟨.error e, []⟩
    | .ok hash signature =>
      match env.HashDir dir with
      | .error e => ⟨.error (.hashDirectory e), [.HashDir dir]⟩
      | .ok computedHash =>
        if computedHash ≠ hash then
          ⟨.error (.hashMismatch hash computedHash), [.HashDir dir]⟩
        else
          match signature with
          | none => ⟨.nil, [.HashDir dir]⟩
          | some sig =>
            let keyPath := c.key.getD []
            match env.ReadFile keyPath with
            | .error e => ⟨.error (.readPublicKey e), [.HashDir dir, .ReadFile keyPath]⟩
            | .ok publicKeyData =>
              match env.ParseAuthorizedKey publicKeyData with
              | .error e =>
                ⟨.error (.parsePublicKey e),
                  [.HashDir dir, .ReadFile keyPath, .ParseAuthorizedKey publicKeyData]⟩
              | .ok publicKey =>
                match env.Verify publicKey computedHash sig with
                | some e =>
                  ⟨.error (.verifySignature e),
                    [.HashDir dir, .ReadFile keyPath, .ParseAuthorizedKey publicKeyData,
                      .Verify computedHash sig]⟩
                | none =>
                  ⟨.nil,
                    [.HashDir dir, .ReadFile keyPath, .ParseAuthorizedKey publicKeyData,
                      .Verify computedHash sig]⟩

/-! ## The directory hasher behind `dirhash.HashDir` -/

/-- Modelled from the spec: a directory tree as the file system presents it to
the hasher (section 3, "Directory Hash"): the relative paths of the regular
files under the root in the order the operating system enumerates them, the
bytes each file reads as (or the I/O error), and the metadata the file system
keeps beside them. -/
structure Tree where
  /-- Relative paths of the regular files, in enumeration order. -/
  files : List GoString
  /-- Reading a file by its relative path. -/
  read : GoString → Except GoError (List Byte)
  /-- Mode bits of a file. -/
  mode : GoString → Nat
  /-- Modification time of a file. -/
  modTime : GoString → Nat

/-- Modelled from the spec: the "fixed, versioned hashing scheme" of section
4.1, left abstract: its scheme identifier, the content digest of one file and
the aggregate digest of the ordered list of (relative path, digest) pairs. -/
structure Scheme where
  /-- The scheme identifier the aggregate is prefixed with. -/
  tag : GoString
  /-- The content digest of a file. -/
  digest : List Byte → List Byte
  /-- The aggregate digest of the ordered (relative path, digest) pairs. -/
  aggregate : List (GoString × List Byte) → GoString

/-- Modelled from the spec: section 4.1, "for each file compute a content
digest", with the failure rule "any unreadable file aborts the whole
operation and surfaces an I/O error". -/
def contentDigests (s : Scheme) (t : Tree) :
    List GoString → Except GoError (List (GoString × List Byte))
  | [] => .ok []
  | path :: paths =>
    match t.read path with
    | .error e => .error e
    | .ok content =>
      match contentDigests s t paths with
      | .error e => .error e
      | .ok pairs => .ok ((path, s.digest content) :: pairs)

/-- Modelled from the spec: the directory hasher `dirhash.HashDir` with
`dirhash.Hash1` (package `golang.org/x/mod/sumdb/dirhash`, a dependency whose
source is not part of the repository), as section 4.1 states its algorithm:
"enumerate all files recursively, sort by relative path (byte-wise
lexicographic), and for each file compute a content digest; combine the ordered
list of (relative path, digest) pairs into one aggregate digest", "prefixed
with a scheme identifier". -/
def HashTree (s : Scheme) (t : Tree) : Except GoError GoString :=
  match contentDigests s t (t.files.insertionSort (· ≤ ·)) with
  | .error e => .error e
  | .ok pairs => .ok (s.tag ++ s.aggregate pairs)

/-- Modelled from the spec: the file system, from the path of a directory to
the tree under it, or the I/O error when the path is not a readable directory
(section 4.1, "Input"). -/
abbrev FileSystem := GoString → Except GoError Tree

/-- Modelled from the spec: the call `dirhash.HashDir(dir, "", dirhash.Hash1)`
on a file system. -/
def HashDir (s : Scheme) (fs : FileSystem) (dir : GoString) : Except GoError GoString :=
  match fs dir with
  | .error e => .error e
  | .ok t => HashTree s t

/-- The library calls `env` with `HashDir` running on the file system `fs`. -/
def Env.onFileSystem {Signer PubKey : Type} (env : Env Signer PubKey) (s : Scheme)
    (fs : FileSystem) : Env Signer PubKey :=
  ⟨env.ShowAppHelp, Dirhash.HashDir s fs, env.ReadFile, env.ParsePrivateKey,
    env.ParsePrivateKeyWithPassphrase, env.PublicKey, env.KeyType, env.Sign,
    env.ParseAuthorizedKey, env.Verify⟩

/-- Two trees with the same contents: the same relative paths, whatever the
enumeration order, and the same bytes (or the same read error) under each path.
Mode bits and modification times are not compared. -/
def SameContents (t₁ t₂ : Tree) : Prop :=
  t₁.files.Perm t₂.files ∧ ∀ path ∈ t₁.files, t₁.read path = t₂.read path

/-! ## The words of the specification on the combined string -/

/-- The text of `s` before its first comma (all of `s` when it has none). -/
def beforeComma (s : GoString) : GoString := s.takeWhile (fun ch => ch ≠ comma)

/-- The text of `s` after its first comma (empty when it has none). -/
def afterComma (s : GoString) : GoString := (s.dropWhile (fun ch => ch ≠ comma)).drop 1

/-! ## Example runs -/

/-- A public key as the examples need it: its type identifier. -/
structure ExampleKey where
  keyType : GoString
  deriving DecidableEq, Repr

/-- An example world: every directory hashes to `h1:abc`, every file reads as
the one line `key`, keys parse to a key of type `keyType`, signing yields the
blob `ABC` in the format of the key type, and verification accepts exactly a
signature whose format is the type of the key. -/
def exampleEnv (keyType : GoString) : Env ExampleKey ExampleKey :=
  ⟨none,
    fun _ => .ok (bytes "h1:abc"),
    fun _ => .ok (bytes "key"),
    fun _ => .ok ⟨keyType⟩,
    fun _ _ => .ok ⟨keyType⟩,
    fun signer => signer,
    fun key => key.keyType,
    fun signer _ => .ok ⟨signer.keyType, bytes "ABC"⟩,
    fun _ => .ok ⟨keyType⟩,
    fun key _ signature =>
      if signature.Format = key.keyType then none
      else some "ssh: signature type does not match key type"⟩

/-- An example scheme: the identity as content digest, the concatenation of
the paths and digests as aggregate. -/
def exampleScheme : Scheme :=
  ⟨bytes "h1:", fun content => content,
    fun pairs => (pairs.map (fun pair => pair.1 ++ pair.2)).flatten⟩

/-- An example tree: `a.txt` and `b.txt`, enumerated in this order. -/
def exampleTree : Tree :=
  ⟨[bytes "a.txt", bytes "b.txt"],
    fun path => if path = bytes "a.txt" then .ok (bytes "hello") else .ok (bytes "world"),
    fun _ => 420, fun _ => 1000⟩

/-- The tree `exampleTree` enumerated in the other order, with other mode bits
and modification times. -/
def exampleTreeTouched : Tree :=
  ⟨[bytes "b.txt", bytes "a.txt"],
    fun path => if path = bytes "a.txt" then .ok (bytes "hello") else .ok (bytes "world"),
    fun _ => 384, fun _ => 2000⟩

/-! ## `strings.Split` -/

theorem Split_ne_nil (s : GoString) (sep : Byte) : Split s sep ≠ [] := by
  induction s with
  | nil => simp [Split]
  | cons ch rest ih =>
    unfold Split
    split
    · simp
    · split <;> simp

theorem Split_of_not_mem (s : GoString) (sep : Byte) (h : sep ∉ s) : Split s sep = [s] := by
  induction s with
  | nil => simp [Split]
  | cons ch rest ih =>
    have h1 : ch ≠ sep := fun e => h (by simp [e])
    have h2 : sep ∉ rest := fun e => h (by simp [e])
    simp [Split, h1, ih h2]

theorem Split_append_sep (pre post : GoString) (sep : Byte) (h : sep ∉ pre) :
    Split (pre ++ sep :: post) sep = pre :: Split post sep := by
  induction pre with
  | nil => simp [Split]
  | cons ch rest ih =>
    have h1 : ch ≠ sep := fun e => h (by simp [e])
    have h2 : sep ∉ rest := fun e => h (by simp [e])
    simp [Split, h1, ih h2]

/-! ## The round trip of `base64.StdEncoding` -/

theorem decodeMap_encChar (k : Nat) (h : k < 64) : decodeMap (encChar k) = some k := by
  interval_cases k <;> rfl

theorem encChar_plain (k : Nat) (h : k < 64) :
    encChar k ≠ comma ∧ encChar k ≠ StdPadding ∧ isNewline (encChar k) = false := by
  interval_cases k <;> decide

theorem decodeMap_StdPadding : decodeMap StdPadding = none := by rfl

theorem quantum3 (a b c : Byte) :
    let val := a.val * 65536 + b.val * 256 + c.val
    let back := val / 262144 % 64 * 262144 + val / 4096 % 64 * 4096 + val / 64 % 64 * 64 + val % 64
    toByte (back / 65536) = a ∧ toByte (back / 256) = b ∧ toByte back = c := by
  intro val back
  have ha := a.isLt
  have hb := b.isLt
  have hc := c.isLt
  refine ⟨?_, ?_, ?_⟩ <;> (apply Fin.ext; simp only [toByte, back, val]; omega)

theorem quantum2 (a b : Byte) :
    let val := a.val * 65536 + b.val * 256
    let back := val / 262144 % 64 * 262144 + val / 4096 % 64 * 4096 + val / 64 % 64 * 64
    toByte (back / 65536) = a ∧ toByte (back / 256) = b := by
  intro val back
  have ha := a.isLt
  have hb := b.isLt
  refine ⟨?_, ?_⟩ <;> (apply Fin.ext; simp only [toByte, back, val]; omega)

theorem quantum1 (a : Byte) :
    let val := a.val * 65536
    let back := val / 262144 % 64 * 262144 + val / 4096 % 64 * 4096
    toByte (back / 65536) = a := by
  intro val back
  have ha := a.isLt
  apply Fin.ext; simp only [toByte, back, val]; omega

theorem decodeQuanta_EncodeToString (blob : List Byte) :
    decodeQuanta (EncodeToString blob) = .ok blob := by
  induction blob using EncodeToString.induct with
  | case1 a b c rest ih =>
    have h := quantum3 a b c
    simp only at h
    simp only [EncodeToString, decodeQuanta,
      decodeMap_encChar _ (Nat.mod_lt _ (by decide : 0 < 64)), ih,
      h.1, h.2.1, h.2.2]
  | case2 a b =>
    have h := quantum2 a b
    simp only at h
    simp [EncodeToString, decodeQuanta, decodeMap_encChar _ (Nat.mod_lt _ (by decide : 0 < 64)),
      decodeMap_StdPadding, h.1, h.2]
  | case3 a =>
    have h := quantum1 a
    simp only at h
    simp [EncodeToString, decodeQuanta, decodeMap_encChar _ (Nat.mod_lt _ (by decide : 0 < 64)),
      decodeMap_StdPadding, h]
  | case4 => rfl

theorem EncodeToString_plain (blob : List Byte) :
    ∀ ch ∈ EncodeToString blob, ch ≠ comma ∧ isNewline ch = false := by
  have hp : StdPadding ≠ comma ∧ isNewline StdPadding = false := by decide
  have he : ∀ k, encChar (k % 64) ≠ comma ∧ isNewline (encChar (k % 64)) = false := fun k =>
    ⟨(encChar_plain _ (Nat.mod_lt _ (by decide))).1, (encChar_plain _ (Nat.mod_lt _ (by decide))).2.2⟩
  induction blob using EncodeToString.induct with
  | case1 a b c rest ih =>
    intro ch hch
    simp only [EncodeToString, List.mem_cons] at hch
    rcases hch with h | h | h | h | h
    · rw [h]; exact he _
    · rw [h]; exact he _
    · rw [h]; exact he _
    · rw [h]; exact he _
    · exact ih ch h
  | case2 a b =>
    intro ch hch
    simp only [EncodeToString, List.mem_cons, List.mem_nil_iff, or_false] at hch
    rcases hch with h | h | h | h
    · rw [h]; exact he _
    · rw [h]; exact he _
    · rw [h]; exact he _
    · rw [h]; exact hp
  | case3 a =>
    intro ch hch
    simp only [EncodeToString, List.mem_cons, List.mem_nil_iff, or_false] at hch
    rcases hch with h | h | h | h
    · rw [h]; exact he _
    · rw [h]; exact he _
    · rw [h]; exact hp
    · rw [h]; exact hp
  | case4 => intro ch hch; simp [EncodeToString] at hch

theorem DecodeString_EncodeToString (blob : List Byte) :
    DecodeString (EncodeToString blob) = .ok blob := by
  have h : (EncodeToString blob).filter (fun ch => !isNewline ch) = EncodeToString blob := by
    rw [List.filter_eq_self]
    intro ch hch
    simp [(EncodeToString_plain blob ch hch).2]
  rw [DecodeString, h, decodeQuanta_EncodeToString]

theorem Split_of_mem (s : GoString) (h : comma ∈ s) :
    Split s comma = beforeComma s :: Split (afterComma s) comma := by
  induction s with
  | nil => simp at h
  | cons ch rest ih =>
    by_cases hch : ch = comma
    · simp [Split, beforeComma, afterComma, hch]
    · have hrest : comma ∈ rest := by
        rcases List.mem_cons.1 h with e | e
        · exact absurd e.symm hch
        · exact e
      have e1 : beforeComma (ch :: rest) = ch :: beforeComma rest := by
        simp [beforeComma, hch]
      have e2 : afterComma (ch :: rest) = afterComma rest := by
        simp [afterComma, hch]
      rw [e1, e2]
      simp [Split, hch, ih hrest]

theorem beforeComma_of_not_mem (s : GoString) (h : comma ∉ s) : beforeComma s = s := by
  unfold beforeComma
  rw [List.takeWhile_eq_self_iff]
  intro ch hch
  have : ch ≠ comma := fun e => h (e ▸ hch)
  simpa using this

theorem Split_head (s : GoString) : (Split s comma).getD 0 [] = beforeComma s := by
  by_cases h : comma ∈ s
  · rw [Split_of_mem s h]; rfl
  · rw [Split_of_not_mem s comma h, beforeComma_of_not_mem s h]; rfl

theorem Split_length_gt_one (s : GoString) : (Split s comma).length > 1 ↔ comma ∈ s := by
  constructor
  · intro hlen
    by_contra h
    rw [Split_of_not_mem s comma h] at hlen
    simp at hlen
  · intro h
    rw [Split_of_mem s h]
    have := Split_ne_nil (afterComma s) comma
    cases hs : Split (afterComma s) comma with
    | nil => exact absurd hs this
    | cons a b => simp

theorem Split_second (s : GoString) (h : comma ∈ s) :
    (Split s comma).getD 1 [] = beforeComma (afterComma s) := by
  rw [Split_of_mem s h]
  exact Split_head (afterComma s)

theorem comma_not_mem_beforeComma (s : GoString) : comma ∉ beforeComma s := by
  intro h
  have := List.mem_takeWhile_imp h
  simp at this

/-! ## The codec -/

/-- Splitting what the sign path encodes: the comma-free hash, and the tag
followed by the base64 text. -/
theorem Split_signed (hash : GoString) (blob : List Byte) (hhash : comma ∉ hash) :
    Split (hash ++ bytes ",s1:" ++ EncodeToString blob) comma
      = [hash, bytes "s1:" ++ EncodeToString blob] := by
  have hseg : comma ∉ bytes "s1:" ++ EncodeToString blob := by
    intro hmem
    rcases List.mem_append.1 hmem with h | h
    · revert h; decide
    · exact (EncodeToString_plain blob comma h).1 rfl
  have e : hash ++ bytes ",s1:" ++ EncodeToString blob
      = hash ++ comma :: (bytes "s1:" ++ EncodeToString blob) := by
    rw [List.append_assoc]; rfl
  rw [e, Split_append_sep _ _ _ hhash, Split_of_not_mem _ _ hseg]

/-- Slicing the tag off the signature token. -/
theorem sliceFrom_tag (payload : GoString) :
    sliceFrom (bytes "s1:" ++ payload) 3 = some payload := by
  have e : bytes "s1:" ++ payload = (115 : Byte) :: 49 :: 58 :: payload := rfl
  rw [e]
  simp [sliceFrom]

/-- C3: encoding a comma-free hash string and any signature blob as
`hash + ",s1:" + base64(blob)` and decoding the result as the verify path does
(with a key supplied) recovers the hash string and the blob bytes exactly. -/
theorem codec_round_trip (hash : GoString) (blob : List Byte) (hhash : comma ∉ hash) :
    decodeCombined (hash ++ bytes ",s1:" ++ EncodeToString blob) true
      = .ok hash (some ⟨KeyAlgoED25519, blob⟩) := by
  unfold decodeCombined
  rw [Split_signed hash blob hhash]
  simp [sliceFrom_tag, DecodeString_EncodeToString]

/-- Witness of C3 at the hash `h1:abc` and the blob `ABC`. -/
theorem codec_round_trip_witness :
    decodeCombined (bytes "h1:abc" ++ bytes ",s1:" ++ EncodeToString (bytes "ABC")) true
      = .ok (bytes "h1:abc") (some ⟨KeyAlgoED25519, bytes "ABC"⟩) :=
  codec_round_trip (bytes "h1:abc") (bytes "ABC") (by decide)

/-- The decoding step only looks at the first two segments of the split. -/
theorem decodeCombined_eq_of_segments (s₁ s₂ : GoString) (keySet : Bool)
    (h0 : (Split s₁ comma).getD 0 [] = (Split s₂ comma).getD 0 [])
    (h1 : (Split s₁ comma).getD 1 [] = (Split s₂ comma).getD 1 [])
    (hlen : (Split s₁ comma).length > 1 ↔ (Split s₂ comma).length > 1) :
    decodeCombined s₁ keySet = decodeCombined s₂ keySet := by
  unfold decodeCombined
  simp only [h0, h1]
  by_cases h : (Split s₂ comma).length > 1
  · simp [h, hlen.2 h]
  · have h' : ¬ (Split s₁ comma).length > 1 := fun e => h (hlen.1 e)
    simp [h, h']

/-- C7, as the code has it: without a comma the decoding returns the whole
string as the expected hash and no signature. With a comma the expected hash is
the text before the first comma and the signature token is the text between
the first and the second comma (up to the end when there is no second comma):
without a key the decoding returns the no-key error, and with a key and a
token of at least three bytes it base64-decodes the token without its first
three bytes and returns the text before the first comma as the expected hash
with the decoded bytes as the signature blob, or a decode error when they are
corrupt. So decoding the string gives what decoding it cut before its second
comma gives. -/
theorem decode_splits_on_every_comma (s : GoString) (keySet : Bool) :
    (comma ∉ s → decodeCombined s keySet = .ok s none) ∧
    (comma ∈ s →
      (Split s comma).getD 0 [] = beforeComma s ∧
      (Split s comma).getD 1 [] = beforeComma (afterComma s) ∧
      decodeCombined s false = .error .noKey ∧
      (3 ≤ (beforeComma (afterComma s)).length →
        decodeCombined s true
          = match DecodeString ((beforeComma (afterComma s)).drop 3) with
            | .error e => .error (.decodeSignature e)
            | .ok blob => .ok (beforeComma s) (some ⟨KeyAlgoED25519, blob⟩)) ∧
      decodeCombined s keySet
        = decodeCombined (beforeComma s ++ comma :: beforeComma (afterComma s)) keySet) := by
  constructor
  · intro h
    unfold decodeCombined
    rw [Split_of_not_mem s comma h]
    simp
  · intro h
    have hlen : (Split s comma).length > 1 := (Split_length_gt_one s).2 h
    refine ⟨Split_head s, Split_second s h, ?_, ?_, ?_⟩
    · unfold decodeCombined
      simp [hlen]
    · intro htoken
      have hslice : sliceFrom (beforeComma (afterComma s)) 3
          = some ((beforeComma (afterComma s)).drop 3) := by
        simp [sliceFrom, htoken]
      unfold decodeCombined
      simp only [hlen, if_true, Split_head s, Split_second s h, hslice]
      cases DecodeString ((beforeComma (afterComma s)).drop 3) <;> simp
    · have hcut : Split (beforeComma s ++ comma :: beforeComma (afterComma s)) comma
          = [beforeComma s, beforeComma (afterComma s)] := by
        rw [Split_append_sep _ _ _ (comma_not_mem_beforeComma s),
          Split_of_not_mem _ _ (comma_not_mem_beforeComma (afterComma s))]
      apply decodeCombined_eq_of_segments
      · rw [Split_head, hcut]; rfl
      · rw [Split_second s h, hcut]; rfl
      · rw [hcut]
        simp [hlen]

/-- Witness of C7 at a string with two commas: the expected hash is `h1:abc`,
the token is `s1:QUJD`, and the decoded blob is `ABC`. -/
theorem decode_splits_on_every_comma_witness :
    comma ∈ bytes "h1:abc,s1:QUJD,zz" ∧
    3 ≤ (beforeComma (afterComma (bytes "h1:abc,s1:QUJD,zz"))).length ∧
    beforeComma (afterComma (bytes "h1:abc,s1:QUJD,zz")) = bytes "s1:QUJD" ∧
    decodeCombined (bytes "h1:abc,s1:QUJD,zz") true
      = .ok (bytes "h1:abc") (some ⟨KeyAlgoED25519, bytes "ABC"⟩) :=
  ⟨by decide, by decide, by decide,
    (((decode_splits_on_every_comma (bytes "h1:abc,s1:QUJD,zz") true).2
      (by decide)).2.2.2.1 (by decide)).trans (by decide)⟩

/-- C7 as stated fails: on `h1:abc,s1:QUJD,zz` the signature token the code
decodes is `s1:QUJD`, not all of the text after the first comma (`s1:QUJD,zz`),
and the decoding succeeds with the blob `ABC`. -/
theorem token_is_not_all_after_first_comma :
    (¬ ∀ s : GoString, comma ∈ s →
      (Split s comma).getD 0 [] = beforeComma s ∧ (Split s comma).getD 1 [] = afterComma s) ∧
    decodeCombined (bytes "h1:abc,s1:QUJD,zz") true
      = .ok (bytes "h1:abc") (some ⟨KeyAlgoED25519, bytes "ABC"⟩) := by
  refine ⟨?_, by decide⟩
  intro h
  have h2 := (h (bytes "h1:abc,s1:QUJD,zz") (by decide)).2
  revert h2
  decide

/-- C5, as the code has it: with a key supplied, when the segment between the
first comma and the next one (or the end) has at least three bytes, the verify
path skips its first three bytes whatever they are and base64-decodes the
rest: a decode error exactly when the rest is corrupt base64, and otherwise the
decoded bytes are the signature blob. -/
theorem decode_skips_three_bytes (hash tag payload suffix : GoString)
    (hhash : comma ∉ hash) (htag : tag.length = 3) (hseg : comma ∉ tag ++ payload)
    (hsuffix : suffix = [] ∨ ∃ more, suffix = comma :: more) :
    decodeCombined (hash ++ comma :: (tag ++ payload) ++ suffix) true
      = match DecodeString payload with
        | .error e => .error (.decodeSignature e)
        | .ok blob => .ok hash (some ⟨KeyAlgoED25519, blob⟩) := by
  have hsplit : ∃ others, Split (hash ++ comma :: (tag ++ payload) ++ suffix) comma
      = hash :: (tag ++ payload) :: others := by
    rcases hsuffix with h | ⟨more, h⟩
    · refine ⟨[], ?_⟩
      rw [h, List.append_nil, Split_append_sep _ _ _ hhash, Split_of_not_mem _ _ hseg]
    · refine ⟨Split more comma, ?_⟩
      have e : hash ++ comma :: (tag ++ payload) ++ suffix
          = hash ++ comma :: ((tag ++ payload) ++ comma :: more) := by
        rw [h]; simp
      rw [e, Split_append_sep _ _ _ hhash, Split_append_sep _ _ _ hseg]
  obtain ⟨others, hsplit⟩ := hsplit
  have hslice : sliceFrom (tag ++ payload) 3 = some payload := by
    have hdrop : (tag ++ payload).drop 3 = payload := by
      rw [← htag]; exact List.drop_left tag payload
    simp [sliceFrom, htag, hdrop]
  unfold decodeCombined
  rw [hsplit]
  simp only [List.length_cons, List.getD_cons_zero, List.getD_cons_succ, hslice]
  cases DecodeString payload <;> simp

/-- Witness of C5 at the tag `xx:` in front of the base64 text `QUJD`. -/
theorem decode_skips_three_bytes_witness :
    decodeCombined (bytes "h1:abc" ++ comma :: (bytes "xx:" ++ bytes "QUJD") ++ []) true
      = match DecodeString (bytes "QUJD") with
        | .error e => .error (.decodeSignature e)
        | .ok blob => .ok (bytes "h1:abc") (some ⟨KeyAlgoED25519, blob⟩) :=
  decode_skips_three_bytes (bytes "h1:abc") (bytes "xx:") (bytes "QUJD") []
    (by decide) (by decide) (by decide) (Or.inl rfl)

/-- C5 as stated fails: the segment `xx:QUJD` does not begin with the tag `s1:`,
and yet the verify path decodes `QUJD` into the signature blob `ABC`. -/
theorem unknown_tag_is_decoded :
    ¬ ∀ arg : GoString, comma ∈ arg → ¬ (bytes "s1:" <+: afterComma arg) →
      ∃ e, decodeCombined arg true = .error (.decodeSignature e) := by
  intro h
  obtain ⟨e, he⟩ := h (bytes "h1:abc,xx:QUJD") (by decide) (by decide)
  revert he
  cases e
  decide

/-! ## The `verify` action -/

/-- Soundness of `verify` on two positional arguments: when the action returns
`nil`, the recomputed hash is the expected hash of the decoded combined string,
and when the decoding produced a signature, a key was supplied, the key file
was read and parsed, and `Verify` accepted the signature on the recomputed
hash under that key. -/
theorem verifyAction_sound {Signer PubKey : Type} (env : Env Signer PubKey) (c : Context)
    (hargs : c.NArg = 2) (hnil : (verifyAction env c).result = .nil) :
    ∃ hash signature,
      decodeCombined (c.Get 0) c.key.isSome = .ok hash signature ∧
      env.HashDir (c.Get 1) = .ok hash ∧
      ∀ sig, signature = some sig →
        ∃ keyPath publicKeyData publicKey,
          c.key = some keyPath ∧ env.ReadFile keyPath = .ok publicKeyData ∧
          env.ParseAuthorizedKey publicKeyData = .ok publicKey ∧
          env.Verify publicKey hash sig = none := by
  unfold verifyAction at hnil
  simp only [hargs, ne_eq, not_true_eq_false, if_false] at hnil
  cases hdec : decodeCombined (c.Get 0) c.key.isSome with
  | panic => simp [hdec] at hnil
  | error e => simp [hdec] at hnil
  | ok hash signature =>
    simp only [hdec] at hnil
    cases hdir : env.HashDir (c.Get 1) with
    | error e => simp [hdir] at hnil
    | ok computedHash =>
      simp only [hdir] at hnil
      by_cases hcmp : computedHash = hash
      · subst hcmp
        refine ⟨computedHash, signature, rfl, rfl, ?_⟩
        intro sig hsig
        subst hsig
        simp only [ne_eq, not_true_eq_false, if_false] at hnil
        have hkey : ∃ keyPath, c.key = some keyPath := by
          cases hk : c.key with
          | some keyPath => exact ⟨keyPath, rfl⟩
          | none =>
            exfalso
            rw [hk] at hdec
            unfold decodeCombined at hdec
            simp only [Option.isSome_none] at hdec
            split at hdec <;> simp at hdec
        obtain ⟨keyPath, hkey⟩ := hkey
        simp only [hkey, Option.getD_some] at hnil
        cases hread : env.ReadFile keyPath with
        | error e => simp [hread] at hnil
        | ok publicKeyData =>
          simp only [hread] at hnil
          cases hparse : env.ParseAuthorizedKey publicKeyData with
          | error e => simp [hparse] at hnil
          | ok publicKey =>
            simp only [hparse] at hnil
            cases hver : env.Verify publicKey computedHash sig with
            | some e => simp [hver] at hnil
            | none => exact ⟨keyPath, publicKeyData, publicKey, hkey, hread, hparse, hver⟩
      · simp [hcmp] at hnil

/-- Witness of the soundness of `verify` at a signed combined string. -/
theorem verifyAction_sound_witness :
    ∃ hash signature,
      decodeCombined (bytes "h1:abc,s1:QUJD") true = .ok hash signature ∧
      (exampleEnv KeyAlgoED25519).HashDir (bytes "dir") = .ok hash ∧
      ∀ sig, signature = some sig →
        ∃ keyPath publicKeyData publicKey,
          some (bytes "id.pub") = some keyPath ∧
          (exampleEnv KeyAlgoED25519).ReadFile keyPath = .ok publicKeyData ∧
          (exampleEnv KeyAlgoED25519).ParseAuthorizedKey publicKeyData = .ok publicKey ∧
          (exampleEnv KeyAlgoED25519).Verify publicKey hash sig = none :=
  verifyAction_sound (exampleEnv KeyAlgoED25519)
    ⟨[bytes "h1:abc,s1:QUJD", bytes "dir"], some (bytes "id.pub"), none⟩ (by decide) (by decide)

/-- C6 at the failing input: on the combined string `h1:abc,` (a trailing
comma) with a key supplied, the slice expression `values[1][3:]` is out of
range and the action panics before any library call, whatever the library
calls would return. -/
theorem verifyAction_trailing_comma_panics {Signer PubKey : Type} (env : Env Signer PubKey) :
    verifyAction env ⟨[bytes "h1:abc,", bytes "dir"], some (bytes "id.pub"), none⟩
      = ⟨.panic, []⟩ := by
  have hdec : decodeCombined (bytes "h1:abc,") true = .panic := by decide
  simp [verifyAction, Context.NArg, Context.Get, hdec]

/-- C1 at the failing input: on the combined string `h1:abc,s1` with a key
supplied, the `verify` action neither returns `nil` nor returns an error. -/
theorem verifyAction_short_segment_returns_nothing {Signer PubKey : Type}
    (env : Env Signer PubKey) :
    (verifyAction env ⟨[bytes "h1:abc,s1", bytes "dir"], some (bytes "id.pub"), none⟩).result
        ≠ .nil ∧
    ∀ e, (verifyAction env
        ⟨[bytes "h1:abc,s1", bytes "dir"], some (bytes "id.pub"), none⟩).result ≠ .error e := by
  have hdec : decodeCombined (bytes "h1:abc,s1") true = .panic := by decide
  have hrun : verifyAction env ⟨[bytes "h1:abc,s1", bytes "dir"], some (bytes "id.pub"), none⟩
      = ⟨.panic, []⟩ := by
    simp [verifyAction, Context.NArg, Context.Get, hdec]
  rw [hrun]
  exact ⟨by simp, fun e => by simp⟩

/-- C9 at the failing input: with a signature present and a public key of type
`ssh-rsa`, the `verify` action makes no key type check: it calls `Verify`, and
the error it returns is the verification error of that call. -/
theorem verifyAction_calls_Verify_with_rsa_key :
    verifyAction (exampleEnv (bytes "ssh-rsa"))
        ⟨[bytes "h1:abc,s1:QUJD", bytes "dir"], some (bytes "id_rsa.pub"), none⟩
      = ⟨.error (.verifySignature "ssh: signature type does not match key type"),
          [.HashDir (bytes "dir"), .ReadFile (bytes "id_rsa.pub"),
            .ParseAuthorizedKey (bytes "key"),
            .Verify (bytes "h1:abc") ⟨KeyAlgoED25519, bytes "ABC"⟩]⟩ := by
  decide

/-! ## Argument validation -/

/-- C10, as the code has it: with a wrong number of positional arguments the
action attempts nothing of the operation; it only calls `cli.ShowAppHelp` and
returns what that call returns, which is `nil` unless displaying the help
itself fails. -/
theorem wrong_arg_count_returns_help_result {Signer PubKey : Type} (env : Env Signer PubKey)
    (c : Context) :
    (c.NArg ≠ 1 → hashAction env c = ⟨helpResult env.ShowAppHelp, [.ShowAppHelp]⟩) ∧
    (c.NArg ≠ 2 → verifyAction env c = ⟨helpResult env.ShowAppHelp, [.ShowAppHelp]⟩) := by
  constructor
  · intro h
    simp [hashAction, h]
  · intro h
    simp [verifyAction, h]

/-- Witness of C10 at the `hash` action without positional arguments, where
displaying the help returns `nil`: the action returns `nil`. -/
theorem wrong_arg_count_returns_help_result_witness :
    hashAction (exampleEnv KeyAlgoED25519) ⟨[], none, none⟩ = ⟨.nil, [.ShowAppHelp]⟩ :=
  (wrong_arg_count_returns_help_result (exampleEnv KeyAlgoED25519) ⟨[], none, none⟩).1
    (by decide)

/-- C10 as stated fails: where `cli.ShowAppHelp` returns `nil`, both actions
return `nil` on a wrong number of positional arguments. -/
theorem wrong_arg_count_is_not_an_error :
    ¬ ∀ (env : Env ExampleKey ExampleKey) (c : Context),
      (c.NArg ≠ 1 → ∃ e, (hashAction env c).result = .error e) ∧
      (c.NArg ≠ 2 → ∃ e, (verifyAction env c).result = .error e) := by
  intro h
  obtain ⟨e, he⟩ := (h (exampleEnv KeyAlgoED25519) ⟨[], none, none⟩).1 (by decide)
  have hrun : (hashAction (exampleEnv KeyAlgoED25519) ⟨[], none, none⟩).result = .nil := by
    decide
  rw [hrun] at he
  exact Result.noConfusion he

/-! ## The `hash` action -/

/-- C8: in the `hash` action with a key supplied, when the directory was hashed
and the key file was read and parsed, a key whose public key type is not
`ssh-ed25519` makes the action return the unsupported-key-type error, with no
call of `Sign` and no call of `Println` in the run. -/
theorem hashAction_rejects_other_key_types {Signer PubKey : Type} (env : Env Signer PubKey)
    (c : Context) (dir keyPath hash : GoString) (keyData : List Byte) (signer : Signer)
    (hargs : c.args = [dir]) (hkey : c.key = some keyPath)
    (hhash : env.HashDir dir = .ok hash) (hread : env.ReadFile keyPath = .ok keyData)
    (hparse : (match c.keyPassphrase with
      | some passphrase => env.ParsePrivateKeyWithPassphrase keyData passphrase
      | none => env.ParsePrivateKey keyData) = .ok signer)
    (htype : env.KeyType (env.PublicKey signer) ≠ KeyAlgoED25519) :
    (hashAction env c).result = .error .unsupportedKeyType ∧
    (∀ data, Call.Sign data ∉ (hashAction env c).trace) ∧
    (∀ line, Call.Println line ∉ (hashAction env c).trace) := by
  cases hpass : c.keyPassphrase with
  | none =>
    rw [hpass] at hparse
    simp only at hparse
    have hrun : hashAction env c
        = ⟨.error .unsupportedKeyType,
            [.HashDir dir, .ReadFile keyPath, .ParsePrivateKey keyData]⟩ := by
      simp [hashAction, Context.NArg, Context.Get, hargs, hkey, hhash, hread, hpass, hparse,
        htype]
    rw [hrun]
    simp
  | some passphrase =>
    rw [hpass] at hparse
    simp only at hparse
    have hrun : hashAction env c
        = ⟨.error .unsupportedKeyType,
            [.HashDir dir, .ReadFile keyPath,
              .ParsePrivateKeyWithPassphrase keyData passphrase]⟩ := by
      simp [hashAction, Context.NArg, Context.Get, hargs, hkey, hhash, hread, hpass, hparse,
        htype]
    rw [hrun]
    simp

/-- Witness of C8 at a key of type `ssh-rsa`. -/
theorem hashAction_rejects_other_key_types_witness :
    (hashAction (exampleEnv (bytes "ssh-rsa"))
        ⟨[bytes "dir"], some (bytes "id_rsa"), none⟩).result = .error .unsupportedKeyType ∧
    (∀ data, Call.Sign data ∉ (hashAction (exampleEnv (bytes "ssh-rsa"))
        ⟨[bytes "dir"], some (bytes "id_rsa"), none⟩).trace) ∧
    (∀ line, Call.Println line ∉ (hashAction (exampleEnv (bytes "ssh-rsa"))
        ⟨[bytes "dir"], some (bytes "id_rsa"), none⟩).trace) :=
  hashAction_rejects_other_key_types (exampleEnv (bytes "ssh-rsa"))
    ⟨[bytes "dir"], some (bytes "id_rsa"), none⟩ (bytes "dir") (bytes "id_rsa")
    (bytes "h1:abc") (bytes "key") ⟨bytes "ssh-rsa"⟩ rfl rfl rfl rfl rfl (by decide)

/-! ## Signing, then verifying -/

/-- What a run of the `hash` action with a key that ends in `nil` did: the key
was of type `ssh-ed25519`, `Sign` returned a signature on the hash, and the one
line printed is the hash, `,s1:` and the base64 text of the signature blob. -/
theorem hashAction_signed {Signer PubKey : Type} (env : Env Signer PubKey)
    (dir keyPath hash : GoString) (passphrase : Option GoString) (keyData : List Byte)
    (signer : Signer) (hhash : env.HashDir dir = .ok hash)
    (hread : env.ReadFile keyPath = .ok keyData)
    (hparse : (match passphrase with
      | some pass => env.ParsePrivateKeyWithPassphrase keyData pass
      | none => env.ParsePrivateKey keyData) = .ok signer)
    (hrun : (hashAction env ⟨[dir], some keyPath, passphrase⟩).result = .nil) :
    env.KeyType (env.PublicKey signer) = KeyAlgoED25519 ∧
    ∃ sig, env.Sign signer hash = .ok sig ∧
      ∀ line, Call.Println line ∈ (hashAction env ⟨[dir], some keyPath, passphrase⟩).trace →
        line = hash ++ bytes ",s1:" ++ EncodeToString sig.Blob := by
  by_cases htype : env.KeyType (env.PublicKey signer) = KeyAlgoED25519
  · refine ⟨htype, ?_⟩
    cases hsign : env.Sign signer hash with
    | error e =>
      exfalso
      cases passphrase with
      | none =>
        simp only at hparse
        simp [hashAction, Context.NArg, Context.Get, hhash, hread, hparse, htype, hsign] at hrun
      | some pass =>
        simp only at hparse
        simp [hashAction, Context.NArg, Context.Get, hhash, hread, hparse, htype, hsign] at hrun
    | ok sig =>
      refine ⟨sig, rfl, ?_⟩
      intro line hline
      cases passphrase with
      | none =>
        simp only at hparse
        simp [hashAction, Context.NArg, Context.Get, hhash, hread, hparse, htype, hsign] at hline
        rw [hline, List.append_assoc]
      | some pass =>
        simp only at hparse
        simp [hashAction, Context.NArg, Context.Get, hhash, hread, hparse, htype, hsign] at hline
        rw [hline, List.append_assoc]
  · exfalso
    cases passphrase with
    | none =>
      simp only at hparse
      simp [hashAction, Context.NArg, Context.Get, hhash, hread, hparse, htype] at hrun
    | some pass =>
      simp only at hparse
      simp [hashAction, Context.NArg, Context.Get, hhash, hread, hparse, htype] at hrun

/-- C2: let the `hash` action, run on a directory whose hash has no comma with
a private key, return `nil` and print the combined string. Then the `verify`
action on that combined string, the same directory and the public key of that
private key returns `nil`, provided the signer produces signatures in the
format of its key type and `Verify` accepts, under the signer's public key,
the signatures the signer produces. -/
theorem sign_then_verify {Signer PubKey : Type} (env : Env Signer PubKey)
    (dir keyPath pubPath hash combined : GoString) (passphrase verifyPassphrase : Option GoString)
    (keyData pubData : List Byte) (signer : Signer)
    (hhash : env.HashDir dir = .ok hash) (hcomma : comma ∉ hash)
    (hread : env.ReadFile keyPath = .ok keyData)
    (hparse : (match passphrase with
      | some pass => env.ParsePrivateKeyWithPassphrase keyData pass
      | none => env.ParsePrivateKey keyData) = .ok signer)
    (hreadPub : env.ReadFile pubPath = .ok pubData)
    (hparsePub : env.ParseAuthorizedKey pubData = .ok (env.PublicKey signer))
    (hformat : ∀ data sig, env.Sign signer data = .ok sig →
      sig.Format = env.KeyType (env.PublicKey signer))
    (haccept : ∀ data sig, env.Sign signer data = .ok sig →
      env.Verify (env.PublicKey signer) data sig = none)
    (hrun : (hashAction env ⟨[dir], some keyPath, passphrase⟩).result = .nil)
    (hprint : Call.Println combined ∈ (hashAction env ⟨[dir], some keyPath, passphrase⟩).trace) :
    (verifyAction env ⟨[combined, dir], some pubPath, verifyPassphrase⟩).result = .nil := by
  obtain ⟨htype, sig, hsign, hline⟩ :=
    hashAction_signed env dir keyPath hash passphrase keyData signer hhash hread hparse hrun
  have hcombined := hline combined hprint
  have hdec : decodeCombined combined true = .ok hash (some ⟨KeyAlgoED25519, sig.Blob⟩) := by
    rw [hcombined]
    unfold decodeCombined
    rw [Split_signed hash sig.Blob hcomma]
    simp [sliceFrom_tag, DecodeString_EncodeToString]
  have hsig : (⟨KeyAlgoED25519, sig.Blob⟩ : Signature) = sig := by
    have := hformat hash sig hsign
    rw [htype] at this
    cases sig
    simp_all
  have hver : env.Verify (env.PublicKey signer) hash ⟨KeyAlgoED25519, sig.Blob⟩ = none := by
    rw [hsig]; exact haccept hash sig hsign
  simp [verifyAction, Context.NArg, Context.Get, hdec, hhash, hreadPub, hparsePub, hver]

/-- Witness of C2 in the example world with an `ssh-ed25519` key. -/
theorem sign_then_verify_witness :
    (verifyAction (exampleEnv KeyAlgoED25519)
      ⟨[bytes "h1:abc,s1:QUJD", bytes "dir"], some (bytes "id.pub"), none⟩).result = .nil :=
  sign_then_verify (exampleEnv KeyAlgoED25519) (bytes "dir") (bytes "id") (bytes "id.pub")
    (bytes "h1:abc") (bytes "h1:abc,s1:QUJD") none none (bytes "key") (bytes "key")
    ⟨KeyAlgoED25519⟩ rfl (by decide) rfl rfl rfl rfl
    (fun _ sig h => by cases h; rfl)
    (fun _ sig h => by cases h; rfl)
    (by decide) (by decide)

/-! ## Determinism of hashing -/

theorem contentDigests_congr (s : Scheme) (t₁ t₂ : Tree) (paths : List GoString)
    (h : ∀ path ∈ paths, t₁.read path = t₂.read path) :
    contentDigests s t₁ paths = contentDigests s t₂ paths := by
  induction paths with
  | nil => rfl
  | cons path rest ih =>
    have hhead : t₁.read path = t₂.read path := h path (List.mem_cons_self _ _)
    have hrest : ∀ p ∈ rest, t₁.read p = t₂.read p :=
      fun p hp => h p (List.mem_cons_of_mem _ hp)
    simp only [contentDigests, hhead, ih hrest]

theorem sorted_files_eq (t₁ t₂ : Tree) (h : t₁.files.Perm t₂.files) :
    t₁.files.insertionSort (· ≤ ·) = t₂.files.insertionSort (· ≤ ·) := by
  apply List.eq_of_perm_of_sorted (r := (· ≤ ·))
  · exact ((List.perm_insertionSort _ _).trans h).trans (List.perm_insertionSort _ _).symm
  · exact List.sorted_insertionSort _ _
  · exact List.sorted_insertionSort _ _

theorem HashTree_congr (s : Scheme) (t₁ t₂ : Tree) (h : SameContents t₁ t₂) :
    HashTree s t₁ = HashTree s t₂ := by
  unfold HashTree
  rw [← sorted_files_eq t₁ t₂ h.1]
  have hread : ∀ path ∈ t₁.files.insertionSort (· ≤ ·), t₁.read path = t₂.read path :=
    fun path hp => h.2 path ((List.perm_insertionSort _ _).mem_iff.1 hp)
  rw [contentDigests_congr s t₁ t₂ _ hread]

/-- C4: the run of the `hash` action without a key (what it returns and the
line it prints) is the same on two file systems whose trees under the given
directory have the same relative paths and the same bytes under each path,
whatever the enumeration order, the mode bits and the modification times; in
particular it is the same on two runs over an unmodified tree. -/
theorem hash_depends_on_contents_only {Signer PubKey : Type} (env : Env Signer PubKey)
    (s : Scheme) (fs₁ fs₂ : FileSystem) (c : Context) (t₁ t₂ : Tree)
    (hkey : c.key = none) (h₁ : fs₁ (c.Get 0) = .ok t₁) (h₂ : fs₂ (c.Get 0) = .ok t₂)
    (hsame : SameContents t₁ t₂) :
    hashAction (env.onFileSystem s fs₁) c = hashAction (env.onFileSystem s fs₂) c := by
  have hdir : HashDir s fs₁ (c.Get 0) = HashDir s fs₂ (c.Get 0) := by
    simp only [HashDir, h₁, h₂, HashTree_congr s t₁ t₂ hsame]
  simp only [hashAction, Env.onFileSystem, hdir, hkey]

/-- Witness of C4 at the example tree and the same tree enumerated in the
other order with other metadata. -/
theorem hash_depends_on_contents_only_witness :
    hashAction ((exampleEnv KeyAlgoED25519).onFileSystem exampleScheme
        (fun _ => .ok exampleTree)) ⟨[bytes "dir"], none, none⟩
      = hashAction ((exampleEnv KeyAlgoED25519).onFileSystem exampleScheme
        (fun _ => .ok exampleTreeTouched)) ⟨[bytes "dir"], none, none⟩ :=
  hash_depends_on_contents_only (exampleEnv KeyAlgoED25519) exampleScheme
    (fun _ => .ok exampleTree) (fun _ => .ok exampleTreeTouched)
    ⟨[bytes "dir"], none, none⟩ exampleTree exampleTreeTouched rfl rfl rfl
    ⟨by decide, by decide⟩

end Dirhash
